import Mathlib

/-!
Verification of the task-diff classifier of the SONTA-kun report assistant
(`src/sonta_kun/diff_analyzer.py`).

Strings are modelled as `List Char` (the code points of a Python `str`).
Python's `str.lower()` is modelled by `Char.toLower` per character: the
completion keywords are ASCII / Japanese, for which this agrees with Python.
`str.strip()` is modelled by removing the usual whitespace code points from
both ends.  `difflib.SequenceMatcher(None, a, b).ratio()` is modelled by
`simScore`, the standard sequence-matching ratio (no junk; the autojunk
heuristic is inactive for the string lengths treated here), computed in exact
rational arithmetic.

`TodoItem` keeps the two fields the classifier reads (`task`, `status`); the
metadata fields (`due_date`, `priority`, `category`, `notes`) are ignored by
every function modelled here and are omitted.  Python's `dict` built by
`{item.task: item for item in previous.items}` is modelled as an association
list in key-insertion order where a later duplicate key overwrites the stored
value in place (`dictInsert`), exactly the CPython semantics; the
`matched_previous` set is modelled as a list queried only by membership.

Dictionary subscripts `previous_tasks[...]` are modelled as `Option`-valued
lookups, and `DiffAnalyzer.analyze` as the `Option`-valued `analyzeO`: a
`none` outcome corresponds to a `KeyError`, so totality of the Python method
is the statement that `analyzeO` never returns `none`.
-/

namespace SontaKun

/-- Strings as lists of code points. -/
abbrev Str := List Char

/-- Whitespace code points removed by Python's `str.strip()` (ASCII whitespace
plus the ideographic space). -/
def isPySpace (c : Char) : Bool :=
  c == ' ' || c == '\t' || c == '\n' || c == '\r' || c == '\x0b' || c == '\x0c' || c == '　'

/-- Model of Python `str.lower()` (ASCII range; the completion keywords are
ASCII or uncased Japanese). -/
def pyLower (s : Str) : Str := s.map Char.toLower

/-- Model of Python `str.strip()`: drop whitespace from both ends. -/
def pyStrip (s : Str) : Str :=
  ((s.dropWhile isPySpace).reverse.dropWhile isPySpace).reverse

/-- Model of Python's substring test `needle in hay`. -/
def containsSub (needle : Str) : Str → Bool
  | [] => needle.isEmpty
  | c :: rest => needle.isPrefixOf (c :: rest) || containsSub needle rest

/-- The two fields of `TodoItem` (excel_reader.py) that the diff analyzer
reads; the ignored metadata fields are omitted. -/
structure TodoItem where
  task : Str
  status : Str
deriving DecidableEq, Inhabited

/-- `TodoList` (excel_reader.py): an ordered snapshot of todo items. -/
structure TodoList where
  items : List TodoItem
  source_file : Option Str := none
deriving DecidableEq

/-- `TaskChange` (diff_analyzer.py): one row of classifier output. -/
structure TaskChange where
  task_name : Str
  change_type : Str
  previous_status : Option Str := none
  current_status : Option Str := none
  details : Str := []
deriving DecidableEq

/-- `DiffResult` (diff_analyzer.py): the five classification buckets. -/
structure DiffResult where
  completed_tasks : List TaskChange := []
  new_tasks : List TaskChange := []
  modified_tasks : List TaskChange := []
  unchanged_tasks : List TaskChange := []
  removed_tasks : List TaskChange := []
deriving DecidableEq

/-- The empty `DiffResult()`. -/
def emptyResult : DiffResult := ⟨[], [], [], [], []⟩

/-- `DiffAnalyzer.COMPLETED_STATUSES`. -/
def COMPLETED_STATUSES : List Str :=
  ["完了".data, "done".data, "closed".data, "finished".data, "完".data, "済".data]

/-- `DiffAnalyzer._is_completed`: a falsy (empty) status is not completed;
otherwise test each completion keyword for substring containment in the
lowered, stripped status. -/
def isCompleted (status : Str) : Bool :=
  if status.isEmpty then false
  else
    let statusLower := pyStrip (pyLower status)
    COMPLETED_STATUSES.any (fun cs => containsSub cs statusLower)

/-- `DiffAnalyzer._compare_items`: classify a matched previous/current pair.
The `taskRenamed` flag is accepted, as in the source, and never read. -/
def compareItems (previous current : TodoItem) (taskRenamed : Bool) : TaskChange :=
  let prevCompleted := isCompleted previous.status
  let currCompleted := isCompleted current.status
  if !prevCompleted && currCompleted then
    ⟨current.task, "completed".data, some previous.status, some current.status, "前回から完了".data⟩
  else if previous.status ≠ current.status then
    ⟨current.task, "modified".data, some previous.status, some current.status, []⟩
  else
    ⟨current.task, "unchanged".data, none, some current.status, []⟩

/-- `DiffAnalyzer._add_to_result`: route a change into its bucket (only the
three kinds `_compare_items` can produce are routed; anything else is
dropped, as in the source). -/
def addToResult (result : DiffResult) (change : TaskChange) : DiffResult :=
  if change.change_type = "completed".data then
    { result with completed_tasks := result.completed_tasks ++ [change] }
  else if change.change_type = "modified".data then
    { result with modified_tasks := result.modified_tasks ++ [change] }
  else if change.change_type = "unchanged".data then
    { result with unchanged_tasks := result.unchanged_tasks ++ [change] }
  else result

/-- Length of the longest common prefix of two strings. -/
def commonPrefixLen : Str → Str → Nat
  | x :: xs, y :: ys => if x = y then commonPrefixLen xs ys + 1 else 0
  | _, _ => 0

/-- The longest matching block `(i, j, k)` of two strings
(`a.drop i` and `b.drop j` share a common prefix of length `k`), maximal `k`,
ties broken by least `i` then least `j` — the block
`difflib.SequenceMatcher.find_longest_match` returns when no junk is set. -/
def bestBlock (a b : Str) : Nat × Nat × Nat :=
  (List.range a.length).foldl
    (fun best i =>
      (List.range b.length).foldl
        (fun best j =>
          let k := commonPrefixLen (a.drop i) (b.drop j)
          if best.2.2 < k then (i, j, k) else best)
        best)
    (0, 0, 0)

/-- Total size of the recursively collected matching blocks
(`difflib.SequenceMatcher.get_matching_blocks`), written with a fuel
parameter; `a.length + b.length` bounds the recursion depth since every
recursive call strictly shrinks the combined length. -/
def matchSumF : Nat → Str → Str → Nat
  | 0, _, _ => 0
  | fuel + 1, a, b =>
    let ijk := bestBlock a b
    if ijk.2.2 = 0 then 0
    else
      matchSumF fuel (a.take ijk.1) (b.take ijk.2.1) + ijk.2.2 +
        matchSumF fuel (a.drop (ijk.1 + ijk.2.2)) (b.drop (ijk.2.1 + ijk.2.2))

/-- Total matched size `M` of `difflib.SequenceMatcher(None, a, b)`. -/
def matchSum (a b : Str) : Nat := matchSumF (a.length + b.length) a b

/-- `difflib.SequenceMatcher(None, a, b).ratio() = 2*M/T`, in exact rational
arithmetic; `1` when both strings are empty, as in `difflib`. -/
def simScore (a b : Str) : ℚ :=
  if a.length + b.length = 0 then 1
  else (2 * matchSum a b : ℚ) / ((a.length : ℚ) + (b.length : ℚ))

/-- `DiffAnalyzer.SIMILARITY_THRESHOLD` (`0.6`). -/
def SIMILARITY_THRESHOLD : ℚ := 3 / 5

/-- Loop body of `DiffAnalyzer._find_similar_task`: scan the candidates in
order, skip already-matched ones, and keep the best seen so far, replacing it
only on a strictly greater score that also reaches the threshold. -/
def findSimilarGo (taskName : Str) (alreadyMatched : List Str) :
    List Str → Option Str → ℚ → Option Str
  | [], best, _ => best
  | p :: rest, best, bestScore =>
    if p ∈ alreadyMatched then findSimilarGo taskName alreadyMatched rest best bestScore
    else
      let r := simScore taskName p
      if bestScore < r ∧ SIMILARITY_THRESHOLD ≤ r then
        findSimilarGo taskName alreadyMatched rest (some p) r
      else
        findSimilarGo taskName alreadyMatched rest best bestScore

/-- `DiffAnalyzer._find_similar_task`. -/
def findSimilarTask (taskName : Str) (previousTasks : List Str) (alreadyMatched : List Str) :
    Option Str :=
  findSimilarGo taskName alreadyMatched previousTasks none 0

/-- CPython `dict` insertion: an existing key keeps its position and gets the
new value, a fresh key is appended. -/
def dictInsert (m : List (Str × TodoItem)) (k : Str) (v : TodoItem) : List (Str × TodoItem) :=
  if m.any (fun kv => kv.1 == k) then
    m.map (fun kv => if kv.1 = k then (k, v) else kv)
  else m ++ [(k, v)]

/-- The dictionary `{item.task: item for item in previous.items}`. -/
def buildPrevMap (items : List TodoItem) : List (Str × TodoItem) :=
  items.foldl (fun m it => dictInsert m it.task it) []

/-- `previous_tasks.keys()`, in insertion order. -/
def dictKeys (m : List (Str × TodoItem)) : List Str := m.map (·.1)

/-- Membership test `k in previous_tasks`. -/
def dictHasKey (m : List (Str × TodoItem)) (k : Str) : Bool :=
  m.any (fun kv => kv.1 == k)

/-- Subscript `previous_tasks[k]`, `Option`-valued (`none` = `KeyError`). -/
def dictGet (m : List (Str × TodoItem)) (k : Str) : Option TodoItem :=
  (m.find? (fun kv => kv.1 == k)).map (·.2)

/-- The `TaskChange` built for a task classified new. -/
def newChange (item : TodoItem) : TaskChange :=
  ⟨item.task, "new".data, none, some item.status, []⟩

/-- The `TaskChange` built for a removed previous task. -/
def removedChange (name : Str) (prevItem : TodoItem) : TaskChange :=
  ⟨name, "removed".data, some prevItem.status, none, []⟩

/-- Body of the `for current_item in current.items` loop of
`DiffAnalyzer.analyze`, over the state (result so far, matched previous
names); `none` models a `KeyError` on a dictionary subscript. -/
def processItem (prevMap : List (Str × TodoItem)) (st : DiffResult × List Str)
    (item : TodoItem) : Option (DiffResult × List Str) :=
  if dictHasKey prevMap item.task then
    match dictGet prevMap item.task with
    | some prevItem =>
        some (addToResult st.1 (compareItems prevItem item false), st.2 ++ [item.task])
    | none => none
  else
    match findSimilarTask item.task (dictKeys prevMap) st.2 with
    | some similarTask =>
        match dictGet prevMap similarTask with
        | some prevItem =>
            some (addToResult st.1 (compareItems prevItem item true), st.2 ++ [similarTask])
        | none => none
    | none =>
        some ({ st.1 with new_tasks := st.1.new_tasks ++ [newChange item] }, st.2)

/-- The final loop of `DiffAnalyzer.analyze`: append a removed entry for every
previous task whose name was never matched, in dictionary order. -/
def addRemoved (result : DiffResult) (prevMap : List (Str × TodoItem))
    (matched : List Str) : DiffResult :=
  { result with
      removed_tasks := result.removed_tasks ++
        ((prevMap.filter (fun kv => kv.1 ∉ matched)).map (fun kv => removedChange kv.1 kv.2)) }

/-- The cold-start branch of `DiffAnalyzer.analyze`: every current task is
new. -/
def newOnlyResult (current : TodoList) : DiffResult :=
  { emptyResult with new_tasks := current.items.map newChange }

/-- `DiffAnalyzer.analyze`, `Option`-valued: `none` models a `KeyError` on a
dictionary subscript (shown below never to happen). -/
def analyzeO (current : TodoList) (previous : Option TodoList) : Option DiffResult :=
  match previous with
  | none => some (newOnlyResult current)
  | some prev =>
    if prev.items.isEmpty then some (newOnlyResult current)
    else
      let prevMap := buildPrevMap prev.items
      (current.items.foldlM (processItem prevMap) (emptyResult, [])).map
        (fun st => addRemoved st.1 prevMap st.2)

/-- Total refinement of one loop iteration: `processItem` never actually
fails, and computes `stepT` (proved below). -/
def stepT (prevMap : List (Str × TodoItem)) (st : DiffResult × List Str)
    (item : TodoItem) : DiffResult × List Str :=
  match dictGet prevMap item.task with
  | some prevItem =>
      (addToResult st.1 (compareItems prevItem item false), st.2 ++ [item.task])
  | none =>
    match findSimilarTask item.task (dictKeys prevMap) st.2 with
    | some similarTask =>
        match dictGet prevMap similarTask with
        | some prevItem =>
            (addToResult st.1 (compareItems prevItem item true), st.2 ++ [similarTask])
        | none => st
    | none => ({ st.1 with new_tasks := st.1.new_tasks ++ [newChange item] }, st.2)

/-- The final matched-previous-names set (as the list the loop builds) of an
`analyze` run. -/
def matchedSet (current : TodoList) (previous : Option TodoList) : List Str :=
  match previous with
  | none => []
  | some prev =>
    if prev.items.isEmpty then []
    else (current.items.foldl (stepT (buildPrevMap prev.items)) (emptyResult, [])).2

/-- Decimal digits of a natural number, for the summary counts. -/
def natStr (n : Nat) : Str := (toString n).data

/-- The `parts` list of `DiffResult.get_summary`: one count per non-empty
bucket, in the fixed order completed, new, modified, removed, unchanged. -/
def summaryParts (r : DiffResult) : List Str :=
  (if r.completed_tasks.isEmpty then [] else
    ["完了: ".data ++ natStr r.completed_tasks.length ++ "件".data]) ++
  (if r.new_tasks.isEmpty then [] else
    ["新規: ".data ++ natStr r.new_tasks.length ++ "件".data]) ++
  (if r.modified_tasks.isEmpty then [] else
    ["変更: ".data ++ natStr r.modified_tasks.length ++ "件".data]) ++
  (if r.removed_tasks.isEmpty then [] else
    ["削除: ".data ++ natStr r.removed_tasks.length ++ "件".data]) ++
  (if r.unchanged_tasks.isEmpty then [] else
    ["継続: ".data ++ natStr r.unchanged_tasks.length ++ "件".data])

/-- Python `sep.join(parts)`. -/
def joinSep (sep : Str) : List Str → Str
  | [] => []
  | [p] => p
  | p :: q :: rest => p ++ sep ++ joinSep sep (q :: rest)

/-- `DiffResult.get_summary`. -/
def getSummary (r : DiffResult) : Str :=
  let parts := summaryParts r
  if parts.isEmpty then "変更なし".data else joinSep "、".data parts

/-- Items of an optional previous list (`[]` when absent). -/
def prevItems : Option TodoList → List TodoItem
  | none => []
  | some prev => prev.items

/-- Task names across the four current-side buckets, in bucket order. -/
def bucketNames (r : DiffResult) : List Str :=
  (r.completed_tasks ++ r.new_tasks ++ r.modified_tasks ++ r.unchanged_tasks).map
    TaskChange.task_name

/-- Names of the removed bucket. -/
def removedNames (r : DiffResult) : List Str :=
  r.removed_tasks.map TaskChange.task_name

/-- Specification-side reading of `_is_completed` (claim wording): the status
is non-empty and some completion keyword is contained in its lowered, stripped
form. -/
def isCompletedSpec (s : Str) : Prop :=
  s ≠ [] ∧ ∃ kw ∈ COMPLETED_STATUSES, containsSub kw (pyStrip (pyLower s)) = true

instance (s : Str) : Decidable (isCompletedSpec s) := by
  unfold isCompletedSpec; exact inferInstance

/-- Proof-layer restatement of the `_find_similar_task` scan relative to a
lower bound `br` on the score: the first candidate attaining the maximal
score strictly above `br` and at least the threshold, `none` if there is no
such candidate. -/
def goPure (taskName : Str) (alreadyMatched : List Str) : ℚ → List Str → Option Str
  | _, [] => none
  | br, p :: rest =>
    if p ∈ alreadyMatched then goPure taskName alreadyMatched br rest
    else if br < simScore taskName p ∧ SIMILARITY_THRESHOLD ≤ simScore taskName p then
      match goPure taskName alreadyMatched (simScore taskName p) rest with
      | some q => some q
      | none => some p
    else goPure taskName alreadyMatched br rest

section DictLemmas

/-- The membership test, spelled via the underlying pairs. -/
lemma hasKey_iff {m : List (Str × TodoItem)} {k : Str} :
    dictHasKey m k = true ↔ ∃ kv ∈ m, kv.1 = k := by
  simp [dictHasKey, List.any_eq_true]

/-- A key that passes the membership test has a value. -/
lemma dictGet_isSome_of_hasKey {m : List (Str × TodoItem)} {k : Str}
    (h : dictHasKey m k = true) : ∃ v, dictGet m k = some v := by
  have hfind : (m.find? (fun kv => kv.1 == k)).isSome = true := by
    rw [List.find?_isSome]
    simpa [List.any_eq_true] using hasKey_iff.mp h
  rcases Option.isSome_iff_exists.mp hfind with ⟨kv, hkv⟩
  exact ⟨kv.2, by simp [dictGet, hkv]⟩

/-- A key with a value passes the membership test. -/
lemma hasKey_of_dictGet {m : List (Str × TodoItem)} {k : Str} {v : TodoItem}
    (h : dictGet m k = some v) : dictHasKey m k = true := by
  simp only [dictGet, Option.map_eq_some'] at h
  rcases h with ⟨kv, hfind, hv⟩
  have h1 := List.mem_of_find?_eq_some hfind
  have h2 := List.find?_some hfind
  simp only [beq_iff_eq] at h2
  exact hasKey_iff.mpr ⟨kv, h1, h2⟩

/-- Key membership in `dictKeys` is the `dictHasKey` test. -/
lemma hasKey_iff_mem_keys {m : List (Str × TodoItem)} {k : Str} :
    dictHasKey m k = true ↔ k ∈ dictKeys m := by
  rw [hasKey_iff]
  simp [dictKeys, List.mem_map, eq_comm]

/-- The pair extracted by a successful `dictGet` belongs to the list. -/
lemma dictGet_mem {m : List (Str × TodoItem)} {k : Str} {v : TodoItem}
    (h : dictGet m k = some v) : (k, v) ∈ m := by
  simp only [dictGet, Option.map_eq_some'] at h
  rcases h with ⟨kv, hfind, hv⟩
  have hmem := List.mem_of_find?_eq_some hfind
  have hk := List.find?_some hfind
  simp only [beq_iff_eq] at hk
  have : kv = (k, v) := by
    cases kv
    simp_all
  rwa [this] at hmem

end DictLemmas

section FindSimilarLemmas

/-- Whatever `findSimilarGo` returns is the running best or a candidate. -/
lemma findSimilarGo_mem {taskName : Str} {matched : List Str} :
    ∀ {l : List Str} {best : Option Str} {br : ℚ} {p : Str},
      findSimilarGo taskName matched l best br = some p → best = some p ∨ p ∈ l := by
  intro l
  induction l with
  | nil =>
    intro best br p h
    simp only [findSimilarGo] at h
    exact Or.inl h
  | cons q rest ih =>
    intro best br p h
    simp only [findSimilarGo] at h
    split at h
    · rcases ih h with h' | h'
      · exact Or.inl h'
      · exact Or.inr (List.mem_cons_of_mem _ h')
    · split at h
      · rcases ih h with h' | h'
        · exact Or.inr (by simp_all)
        · exact Or.inr (List.mem_cons_of_mem _ h')
      · rcases ih h with h' | h'
        · exact Or.inl h'
        · exact Or.inr (List.mem_cons_of_mem _ h')

/-- `_find_similar_task` only returns one of its candidates. -/
lemma findSimilarTask_mem {taskName : Str} {prevs matched : List Str} {p : Str}
    (h : findSimilarTask taskName prevs matched = some p) : p ∈ prevs := by
  rcases findSimilarGo_mem h with h' | h'
  · cases h'
  · exact h'

end FindSimilarLemmas

section StepLemmas

/-- The loop body never hits a `KeyError`: it computes the total `stepT`. -/
lemma processItem_eq_stepT (prevMap : List (Str × TodoItem)) (st : DiffResult × List Str)
    (item : TodoItem) : processItem prevMap st item = some (stepT prevMap st item) := by
  unfold processItem stepT
  by_cases hk : dictHasKey prevMap item.task = true
  · rcases dictGet_isSome_of_hasKey hk with ⟨v, hv⟩
    simp [hk, hv]
  · have hget : dictGet prevMap item.task = none := by
      cases hget : dictGet prevMap item.task with
      | none => rfl
      | some v => exact absurd (hasKey_of_dictGet hget) hk
    cases hsim : findSimilarTask item.task (dictKeys prevMap) st.2 with
    | none => simp [hk, hget, hsim]
    | some similarTask =>
      have hmem : similarTask ∈ dictKeys prevMap := findSimilarTask_mem hsim
      rcases dictGet_isSome_of_hasKey (hasKey_iff_mem_keys.mpr hmem) with ⟨v, hv⟩
      simp [hk, hget, hsim, hv]

/-- The monadic fold over the loop body is the pure fold over `stepT`. -/
lemma foldlM_processItem (prevMap : List (Str × TodoItem)) :
    ∀ (l : List TodoItem) (st : DiffResult × List Str),
      l.foldlM (processItem prevMap) st = some (l.foldl (stepT prevMap) st) := by
  intro l
  induction l with
  | nil => intro st; rfl
  | cons item rest ih =>
    intro st
    rw [List.foldlM_cons, processItem_eq_stepT, List.foldl_cons]
    exact ih (stepT prevMap st item)

/-- Total form of `DiffAnalyzer.analyze` (equal to `analyzeO`, shown below). -/
def analyzeRun (current : TodoList) (previous : Option TodoList) : DiffResult :=
  match previous with
  | none => newOnlyResult current
  | some prev =>
    if prev.items.isEmpty then newOnlyResult current
    else
      let prevMap := buildPrevMap prev.items
      let st := current.items.foldl (stepT prevMap) (emptyResult, [])
      addRemoved st.1 prevMap st.2

/-- `analyzeO` always succeeds and computes `analyzeRun`. -/
lemma analyzeO_eq_run (current : TodoList) (previous : Option TodoList) :
    analyzeO current previous = some (analyzeRun current previous) := by
  cases previous with
  | none => rfl
  | some prev =>
    by_cases h : prev.items.isEmpty
    · simp [analyzeO, analyzeRun, h]
    · simp [analyzeO, analyzeRun, h, foldlM_processItem]

end StepLemmas

/-- C6 — Totality: `DiffAnalyzer.analyze` terminates with a `ChangeReport`
(`DiffResult`) on every pair of well-typed task collections, including empty
ones and an absent previous collection; no input reaches an error branch
(both dictionary subscripts provably never raise `KeyError`). -/
theorem analyze_total (current : TodoList) (previous : Option TodoList) :
    ∃ r : DiffResult, analyzeO current previous = some r :=
  ⟨analyzeRun current previous, analyzeO_eq_run current previous⟩

/-- C2 — Cold start: with an absent or empty previous collection, every
current task is classified New, carrying its current status and no previous
status, and all other buckets are empty; an empty current collection yields
an entirely empty report. -/
theorem analyze_cold_start (current : TodoList) (previous : Option TodoList)
    (h : previous = none ∨ ∃ prev, previous = some prev ∧ prev.items = []) :
    analyzeO current previous =
      some ⟨[], current.items.map (fun it => ⟨it.task, "new".data, none, some it.status, []⟩),
        [], [], []⟩ := by
  rcases h with h | ⟨prev, hprev, hitems⟩
  · subst h; rfl
  · subst hprev
    simp [analyzeO, hitems, newOnlyResult, emptyResult, newChange]

/-- Witness for C2 at a concrete cold-start input. -/
theorem analyze_cold_start_witness :
    analyzeO ⟨[⟨['T'], ['進']⟩, ⟨['U'], []⟩], none⟩ none =
      some ⟨[], [⟨['T'], "new".data, none, some ['進'], []⟩,
        ⟨['U'], "new".data, none, some [], []⟩], [], [], []⟩ :=
  analyze_cold_start ⟨[⟨['T'], ['進']⟩, ⟨['U'], []⟩], none⟩ none (Or.inl rfl)

/-- C7 — Concrete scenario: previous `[(A, 進行中), (B, 未着手)]`, current
`[(A, 完了), (B, 進行中)]` yields Completed `[A]`, Modified `[B]`, and empty
New, Removed and Unchanged buckets. -/
theorem analyze_scenario :
    analyzeO ⟨[⟨"A".data, "完了".data⟩, ⟨"B".data, "進行中".data⟩], none⟩
        (some ⟨[⟨"A".data, "進行中".data⟩, ⟨"B".data, "未着手".data⟩], none⟩) =
      some ⟨[⟨"A".data, "completed".data, some "進行中".data, some "完了".data,
          "前回から完了".data⟩],
        [], [⟨"B".data, "modified".data, some "未着手".data, some "進行中".data, []⟩],
        [], []⟩ := by
  rfl

/-- C8 — Dead flag: `_compare_items` never reads `task_renamed`; the change
produced for a matched pair is identical for a fuzzy and for an exact match. -/
theorem compareItems_renamed_irrelevant (previous current : TodoItem) :
    compareItems previous current true = compareItems previous current false := rfl

section CompareLemmas

/-- The boolean `_is_completed` agrees with its specification reading. -/
lemma isCompleted_iff (s : Str) : isCompleted s = true ↔ isCompletedSpec s := by
  unfold isCompleted isCompletedSpec
  by_cases hs : s = []
  · subst hs; simp
  · simp [hs, List.isEmpty_iff, List.any_eq_true]

end CompareLemmas

/-- C3 — Matched-pair classification: `is_completed` holds iff the lowered,
trimmed status contains a completion keyword (`完了`, `done`, `closed`,
`finished`, `完`, `済`), and an empty status is never completed; a pair going
from not-completed to completed is classified Completed with the fixed detail
marker `前回から完了`; otherwise a pair with exactly (untrimmed) unequal
status strings is Modified; otherwise it is Unchanged. -/
theorem compare_classification (s : Str) (previous current : TodoItem) (taskRenamed : Bool) :
    (isCompleted s = true ↔ isCompletedSpec s) ∧
    isCompleted [] = false ∧
    (¬ isCompletedSpec previous.status → isCompletedSpec current.status →
      compareItems previous current taskRenamed =
        ⟨current.task, "completed".data, some previous.status, some current.status,
          "前回から完了".data⟩) ∧
    (¬ (¬ isCompletedSpec previous.status ∧ isCompletedSpec current.status) →
      previous.status ≠ current.status →
      compareItems previous current taskRenamed =
        ⟨current.task, "modified".data, some previous.status, some current.status, []⟩) ∧
    (¬ (¬ isCompletedSpec previous.status ∧ isCompletedSpec current.status) →
      previous.status = current.status →
      compareItems previous current taskRenamed =
        ⟨current.task, "unchanged".data, none, some current.status, []⟩) := by
  have hcondF : ¬ (¬ isCompletedSpec previous.status ∧ isCompletedSpec current.status) →
      (!isCompleted previous.status && isCompleted current.status) = false := by
    intro h
    by_cases hbp : isCompleted previous.status = true
    · simp [hbp]
    · have hnc : ¬ isCompletedSpec current.status := fun hc =>
        h ⟨fun hp => hbp ((isCompleted_iff _).mpr hp), hc⟩
      have hbc : isCompleted current.status = false :=
        Bool.eq_false_iff.mpr (fun hb => hnc ((isCompleted_iff _).mp hb))
      simp [hbc]
  refine ⟨isCompleted_iff s, rfl, ?_, ?_, ?_⟩
  · intro hp hc
    have hbp : isCompleted previous.status = false :=
      Bool.eq_false_iff.mpr (fun hb => hp ((isCompleted_iff _).mp hb))
    have hbc : isCompleted current.status = true := (isCompleted_iff _).mpr hc
    simp [compareItems, hbp, hbc]
  · intro h hne
    simp [compareItems, hcondF h, hne]
  · intro h heq
    simp [compareItems, hcondF h, heq]

/-- Witness for C3: `進行中 → 完了` is classified Completed with the marker. -/
theorem compare_classification_witness :
    ¬ isCompletedSpec "進行中".data ∧ isCompletedSpec "完了".data ∧
    compareItems ⟨['T'], "進行中".data⟩ ⟨['T'], "完了".data⟩ false =
      ⟨['T'], "completed".data, some "進行中".data, some "完了".data, "前回から完了".data⟩ :=
  ⟨by decide, by decide,
    (compare_classification [] ⟨['T'], "進行中".data⟩ ⟨['T'], "完了".data⟩ false).2.2.1
      (by decide) (by decide)⟩

section SummaryLemmas

/-- The `parts` list is empty exactly when all five buckets are. -/
lemma summaryParts_eq_nil_iff (r : DiffResult) :
    summaryParts r = [] ↔
      r.completed_tasks = [] ∧ r.new_tasks = [] ∧ r.modified_tasks = [] ∧
        r.removed_tasks = [] ∧ r.unchanged_tasks = [] := by
  unfold summaryParts
  by_cases h1 : r.completed_tasks = [] <;>
    by_cases h2 : r.new_tasks = [] <;>
      by_cases h3 : r.modified_tasks = [] <;>
        by_cases h4 : r.removed_tasks = [] <;>
          by_cases h5 : r.unchanged_tasks = [] <;>
            simp [h1, h2, h3, h4, h5, List.isEmpty_iff]

/-- Membership in a conditionally-included singleton. -/
lemma mem_ite_singleton {q x : Str} {b : Bool} (h : q ∈ if b = true then ([] : List Str) else [x]) :
    q = x := by
  split at h
  · cases h
  · simpa using h

/-- Every summary part is a four-character label (third character a colon)
followed by a count. -/
lemma mem_summaryParts {r : DiffResult} {q : Str} (hq : q ∈ summaryParts r) :
    ∃ lab n, q = lab ++ natStr n ++ "件".data ∧ lab.length = 4 ∧ lab[2]? = some ':' := by
  unfold summaryParts at hq
  simp only [List.mem_append] at hq
  rcases hq with ((((h | h) | h) | h) | h)
  · exact ⟨"完了: ".data, _, mem_ite_singleton h, rfl, rfl⟩
  · exact ⟨"新規: ".data, _, mem_ite_singleton h, rfl, rfl⟩
  · exact ⟨"変更: ".data, _, mem_ite_singleton h, rfl, rfl⟩
  · exact ⟨"削除: ".data, _, mem_ite_singleton h, rfl, rfl⟩
  · exact ⟨"継続: ".data, _, mem_ite_singleton h, rfl, rfl⟩

/-- Reading inside the first part of a joined list. -/
lemma joinSep_getElem2 {sep p : Str} {ps : List Str} (h2 : 2 < p.length) :
    (joinSep sep (p :: ps))[2]? = p[2]? := by
  cases ps with
  | nil => rfl
  | cons q rest =>
    show ((p ++ sep) ++ joinSep sep (q :: rest))[2]? = p[2]?
    rw [List.getElem?_append_left (by simp; omega), List.getElem?_append_left h2]

end SummaryLemmas

/-- C10 — Summary string: `get_summary` returns exactly `変更なし` iff all
five buckets are empty; otherwise it is the join, separated by the full-width
comma, of the per-bucket counts of the non-empty buckets in the fixed order
completed, new, modified, removed, unchanged (the order and conditional
inclusion being recorded by `summaryParts`). -/
theorem summary_characterization (r : DiffResult) :
    (getSummary r = "変更なし".data ↔
      r.completed_tasks = [] ∧ r.new_tasks = [] ∧ r.modified_tasks = [] ∧
        r.removed_tasks = [] ∧ r.unchanged_tasks = []) ∧
    (summaryParts r ≠ [] → getSummary r = joinSep "、".data (summaryParts r)) := by
  constructor
  · constructor
    · intro hsum
      rw [← summaryParts_eq_nil_iff]
      cases hparts : summaryParts r with
      | nil => rfl
      | cons p ps =>
        exfalso
        have hjoin : getSummary r = joinSep "、".data (p :: ps) := by
          simp [getSummary, hparts]
        rcases mem_summaryParts (r := r) (hparts ▸ List.mem_cons_self p ps) with
          ⟨lab, n, hpe, hlen, hcolon⟩
        have hplen : 2 < p.length := by
          rw [hpe]
          simp only [List.length_append, hlen]
          omega
        have h1 : (joinSep "、".data (p :: ps))[2]? = some ':' := by
          rw [joinSep_getElem2 hplen, hpe, List.append_assoc,
            List.getElem?_append_left (by omega), hcolon]
        rw [← hjoin, hsum] at h1
        simp at h1
    · intro h5
      have : summaryParts r = [] := (summaryParts_eq_nil_iff r).mpr h5
      simp [getSummary, this]
  · intro hne
    simp [getSummary, List.isEmpty_iff, hne]

/-- Witness for C10: the empty report summarizes to `変更なし`; a report with
one completed task joins the non-empty counts. -/
theorem summary_characterization_witness :
    getSummary emptyResult = "変更なし".data ∧
    getSummary ⟨[⟨['a'], "completed".data, none, none, []⟩], [], [], [], []⟩ =
      joinSep "、".data
        (summaryParts ⟨[⟨['a'], "completed".data, none, none, []⟩], [], [], [], []⟩) :=
  ⟨(summary_characterization emptyResult).1.mpr ⟨rfl, rfl, rfl, rfl, rfl⟩,
    (summary_characterization ⟨[⟨['a'], "completed".data, none, none, []⟩], [], [], [], []⟩).2
      (by decide)⟩

section ArgmaxLemmas

/-- The scan of `_find_similar_task` computes `goPure`, with the running best
as fallback. -/
lemma findSimilarGo_eq_goPure (taskName : Str) (matched : List Str) :
    ∀ (l : List Str) (best : Option Str) (br : ℚ),
      findSimilarGo taskName matched l best br =
        match goPure taskName matched br l with
        | some q => some q
        | none => best := by
  intro l
  induction l with
  | nil => intro best br; rfl
  | cons p rest ih =>
    intro best br
    simp only [findSimilarGo, goPure]
    by_cases hm : p ∈ matched
    · simp only [if_pos hm, ih]
    · simp only [if_neg hm]
      by_cases hc : br < simScore taskName p ∧ SIMILARITY_THRESHOLD ≤ simScore taskName p
      · rw [if_pos hc, ih]
        cases hg : goPure taskName matched (simScore taskName p) rest <;> simp [hg, hc]
      · simp only [if_neg hc, ih]

/-- When the scan from lower bound `br` finds nothing, every unmatched
candidate is at most `br` or below the threshold. -/
lemma goPure_none {taskName : Str} {matched : List Str} :
    ∀ (l : List Str) (br : ℚ), goPure taskName matched br l = none →
      ∀ p ∈ l, p ∉ matched →
        simScore taskName p ≤ br ∨ simScore taskName p < SIMILARITY_THRESHOLD := by
  intro l
  induction l with
  | nil => intro br _ p hp; cases hp
  | cons q rest ih =>
    intro br h p hp hpm
    simp only [goPure] at h
    by_cases hm : q ∈ matched
    · rw [if_pos hm] at h
      rcases List.mem_cons.mp hp with rfl | hp'
      · exact absurd hm hpm
      · exact ih br h p hp' hpm
    · rw [if_neg hm] at h
      by_cases hc : br < simScore taskName q ∧ SIMILARITY_THRESHOLD ≤ simScore taskName q
      · rw [if_pos hc] at h
        cases hg : goPure taskName matched (simScore taskName q) rest with
        | some q' => rw [hg] at h; cases h
        | none => rw [hg] at h; cases h
      · rw [if_neg hc] at h
        rcases List.mem_cons.mp hp with rfl | hp'
        · rcases not_and_or.mp hc with h1 | h1
          · exact Or.inl (not_lt.mp h1)
          · exact Or.inr (not_le.mp h1)
        · exact ih br h p hp' hpm

/-- When the scan from lower bound `br` returns a candidate, it is the first
unmatched candidate attaining the maximal score, that score strictly above
`br` and at least the threshold. -/
lemma goPure_some {taskName : Str} {matched : List Str} :
    ∀ (l : List Str) (br : ℚ) (q : Str), goPure taskName matched br l = some q →
      ∃ i : ℕ, l[i]? = some q ∧ q ∉ matched ∧ br < simScore taskName q ∧
        SIMILARITY_THRESHOLD ≤ simScore taskName q ∧
        (∀ (j : ℕ) (x : Str), l[j]? = some x → x ∉ matched →
          simScore taskName x ≤ simScore taskName q) ∧
        (∀ (j : ℕ) (x : Str), j < i → l[j]? = some x → x ∉ matched →
          simScore taskName x < simScore taskName q) := by
  intro l
  induction l with
  | nil => intro br q h; cases h
  | cons p rest ih =>
    intro br q h
    simp only [goPure] at h
    by_cases hm : p ∈ matched
    · rw [if_pos hm] at h
      rcases ih br q h with ⟨i, hget, hqm, hbr, hth, hall, hbefore⟩
      refine ⟨i + 1, by simpa using hget, hqm, hbr, hth, ?_, ?_⟩
      · intro j x hj hxm
        cases j with
        | zero =>
          simp only [List.getElem?_cons_zero, Option.some.injEq] at hj
          exact absurd (hj ▸ hm) hxm
        | succ j' =>
          rw [List.getElem?_cons_succ] at hj
          exact hall j' x hj hxm
      · intro j x hji hj hxm
        cases j with
        | zero =>
          simp only [List.getElem?_cons_zero, Option.some.injEq] at hj
          exact absurd (hj ▸ hm) hxm
        | succ j' =>
          rw [List.getElem?_cons_succ] at hj
          exact hbefore j' x (by omega) hj hxm
    · rw [if_neg hm] at h
      by_cases hc : br < simScore taskName p ∧ SIMILARITY_THRESHOLD ≤ simScore taskName p
      · rw [if_pos hc] at h
        cases hg : goPure taskName matched (simScore taskName p) rest with
        | some q' =>
          rw [hg] at h
          cases h
          rcases ih (simScore taskName p) q hg with ⟨i, hget, hqm, hbr', hth, hall, hbefore⟩
          refine ⟨i + 1, by simpa using hget, hqm, lt_trans hc.1 hbr', hth, ?_, ?_⟩
          · intro j x hj hxm
            cases j with
            | zero =>
              simp only [List.getElem?_cons_zero, Option.some.injEq] at hj
              exact hj ▸ le_of_lt hbr'
            | succ j' =>
              rw [List.getElem?_cons_succ] at hj
              exact hall j' x hj hxm
          · intro j x hji hj hxm
            cases j with
            | zero =>
              simp only [List.getElem?_cons_zero, Option.some.injEq] at hj
              exact hj ▸ hbr'
            | succ j' =>
              rw [List.getElem?_cons_succ] at hj
              exact hbefore j' x (by omega) hj hxm
        | none =>
          rw [hg] at h
          cases h
          refine ⟨0, by simp, hm, hc.1, hc.2, ?_, ?_⟩
          · intro j x hj hxm
            cases j with
            | zero =>
              simp only [List.getElem?_cons_zero, Option.some.injEq] at hj
              exact hj ▸ le_refl _
            | succ j' =>
              rw [List.getElem?_cons_succ] at hj
              rcases goPure_none rest (simScore taskName p) hg x (List.getElem?_mem hj) hxm with
                h1 | h1
              · exact h1
              · exact le_of_lt (lt_of_lt_of_le h1 hc.2)
          · intro j x hji hj hxm
            omega
      · rw [if_neg hc] at h
        rcases ih br q h with ⟨i, hget, hqm, hbr, hth, hall, hbefore⟩
        have hps : simScore taskName p < simScore taskName q := by
          rcases not_and_or.mp hc with h1 | h1
          · exact lt_of_le_of_lt (not_lt.mp h1) hbr
          · exact lt_of_lt_of_le (not_le.mp h1) hth
        refine ⟨i + 1, by simpa using hget, hqm, hbr, hth, ?_, ?_⟩
        · intro j x hj hxm
          cases j with
          | zero =>
            simp only [List.getElem?_cons_zero, Option.some.injEq] at hj
            exact hj ▸ le_of_lt hps
          | succ j' =>
            rw [List.getElem?_cons_succ] at hj
            exact hall j' x hj hxm
        · intro j x hji hj hxm
          cases j with
          | zero =>
            simp only [List.getElem?_cons_zero, Option.some.injEq] at hj
            exact hj ▸ hps
          | succ j' =>
            rw [List.getElem?_cons_succ] at hj
            exact hbefore j' x (by omega) hj hxm

end ArgmaxLemmas

/-- C4 — Fuzzy fallback: when `_find_similar_task` returns a candidate, it is
a still-unmatched previous name whose sequence-matching score against the
current name is at least `0.6` and maximal among the unmatched candidates,
and every unmatched candidate listed earlier scores strictly lower (ties are
broken in favour of the first-encountered candidate, since the scan updates
only on strict improvement); when it returns `none` (the task then becomes
New), every unmatched candidate scores below `0.6`. -/
theorem find_similar_argmax (taskName : Str) (prevs matched : List Str) :
    (∀ p, findSimilarTask taskName prevs matched = some p →
      ∃ i : ℕ, prevs[i]? = some p ∧ p ∉ matched ∧
        SIMILARITY_THRESHOLD ≤ simScore taskName p ∧
        (∀ (j : ℕ) (x : Str), prevs[j]? = some x → x ∉ matched →
          simScore taskName x ≤ simScore taskName p) ∧
        (∀ (j : ℕ) (x : Str), j < i → prevs[j]? = some x → x ∉ matched →
          simScore taskName x < simScore taskName p)) ∧
    (findSimilarTask taskName prevs matched = none →
      ∀ p ∈ prevs, p ∉ matched → simScore taskName p < SIMILARITY_THRESHOLD) := by
  constructor
  · intro p hp
    unfold findSimilarTask at hp
    rw [findSimilarGo_eq_goPure] at hp
    cases hg : goPure taskName matched 0 prevs with
    | none => rw [hg] at hp; cases hp
    | some q =>
      rw [hg] at hp
      cases hp
      rcases goPure_some prevs 0 p hg with ⟨i, hget, hqm, _, hth, hall, hbefore⟩
      exact ⟨i, hget, hqm, hth, hall, hbefore⟩
  · intro hnone p hp hpm
    unfold findSimilarTask at hnone
    rw [findSimilarGo_eq_goPure] at hnone
    cases hg : goPure taskName matched 0 prevs with
    | some q => rw [hg] at hnone; cases hnone
    | none =>
      rcases goPure_none prevs 0 hg p hp hpm with h1 | h1
      · exact lt_of_le_of_lt h1 (by norm_num [SIMILARITY_THRESHOLD])
      · exact h1

section ConcreteScores

/-- Concrete score: identical two-character names score `1`. -/
lemma simScore_ab_ab : simScore ['a', 'b'] ['a', 'b'] = 1 := by
  have h : matchSum ['a', 'b'] ['a', 'b'] = 2 := rfl
  norm_num [simScore, h]

/-- Concrete score: disjoint two-character names score `0`. -/
lemma simScore_ab_cd : simScore ['a', 'b'] ['c', 'd'] = 0 := by
  have h : matchSum ['a', 'b'] ['c', 'd'] = 0 := rfl
  norm_num [simScore, h]

/-- Concrete run of `_find_similar_task` with one exact-scoring candidate and
one unrelated candidate. -/
lemma findSimilarTask_concrete :
    findSimilarTask ['a', 'b'] [['a', 'b'], ['c', 'd']] [] = some ['a', 'b'] := by
  norm_num [findSimilarTask, findSimilarGo, simScore_ab_ab, simScore_ab_cd,
    SIMILARITY_THRESHOLD]

end ConcreteScores

/-- Witness for C4 at a concrete input: the returned candidate satisfies the
argmax characterization. -/
theorem find_similar_argmax_witness :
    ∃ i : ℕ, [['a', 'b'], ['c', 'd']][i]? = some ['a', 'b'] ∧
      (['a', 'b'] : Str) ∉ ([] : List Str) ∧
      SIMILARITY_THRESHOLD ≤ simScore ['a', 'b'] ['a', 'b'] ∧
      (∀ (j : ℕ) (x : Str), [['a', 'b'], ['c', 'd']][j]? = some x → x ∉ ([] : List Str) →
        simScore ['a', 'b'] x ≤ simScore ['a', 'b'] ['a', 'b']) ∧
      (∀ (j : ℕ) (x : Str), j < i → [['a', 'b'], ['c', 'd']][j]? = some x →
        x ∉ ([] : List Str) →
        simScore ['a', 'b'] x < simScore ['a', 'b'] ['a', 'b']) :=
  (find_similar_argmax ['a', 'b'] [['a', 'b'], ['c', 'd']] []).1 ['a', 'b']
    findSimilarTask_concrete

section BucketLemmas

/-- A comparison record carries the current task's name. -/
lemma compareItems_task (previous current : TodoItem) (rn : Bool) :
    (compareItems previous current rn).task_name = current.task := by
  simp only [compareItems]
  split
  · rfl
  · split <;> rfl

/-- A comparison record has one of the three routed kinds. -/
lemma compareItems_type (previous current : TodoItem) (rn : Bool) :
    (compareItems previous current rn).change_type = "completed".data ∨
    (compareItems previous current rn).change_type = "modified".data ∨
    (compareItems previous current rn).change_type = "unchanged".data := by
  simp only [compareItems]
  split
  · exact Or.inl rfl
  · split
    · exact Or.inr (Or.inl rfl)
    · exact Or.inr (Or.inr rfl)

/-- Routing a change never touches the new bucket. -/
lemma addToResult_new (r : DiffResult) (ch : TaskChange) :
    (addToResult r ch).new_tasks = r.new_tasks := by
  unfold addToResult
  split
  · rfl
  · split
    · rfl
    · split <;> rfl

/-- Routing a change never touches the removed bucket. -/
lemma addToResult_removed (r : DiffResult) (ch : TaskChange) :
    (addToResult r ch).removed_tasks = r.removed_tasks := by
  unfold addToResult
  split
  · rfl
  · split
    · rfl
    · split <;> rfl

/-- Routing a change of one of the three kinds adds exactly its name to the
current-side buckets. -/
lemma addToResult_bucketNames (r : DiffResult) (ch : TaskChange)
    (h : ch.change_type = "completed".data ∨ ch.change_type = "modified".data ∨
      ch.change_type = "unchanged".data) :
    List.Perm (bucketNames (addToResult r ch)) (ch.task_name :: bucketNames r) := by
  rw [List.perm_iff_count]
  intro a
  rcases h with h | h | h
  · have heq : addToResult r ch = { r with completed_tasks := r.completed_tasks ++ [ch] } := by
      unfold addToResult
      rw [if_pos h]
    simp only [heq, bucketNames, List.map_append, List.count_append, List.count_cons,
      List.map_cons, List.map_nil, List.count_nil]
    omega
  · have heq : addToResult r ch = { r with modified_tasks := r.modified_tasks ++ [ch] } := by
      unfold addToResult
      rw [if_neg (by rw [h]; decide), if_pos h]
    simp only [heq, bucketNames, List.map_append, List.count_append, List.count_cons,
      List.map_cons, List.map_nil, List.count_nil]
    omega
  · have heq : addToResult r ch = { r with unchanged_tasks := r.unchanged_tasks ++ [ch] } := by
      unfold addToResult
      rw [if_neg (by rw [h]; decide), if_neg (by rw [h]; decide), if_pos h]
    simp only [heq, bucketNames, List.map_append, List.count_append, List.count_cons,
      List.map_cons, List.map_nil, List.count_nil]
    omega

/-- Appending a new-task record adds exactly its name to the current-side
buckets. -/
lemma bucketNames_addNew (r : DiffResult) (nc : TaskChange) :
    List.Perm (bucketNames { r with new_tasks := r.new_tasks ++ [nc] })
      (nc.task_name :: bucketNames r) := by
  rw [List.perm_iff_count]
  intro a
  simp only [bucketNames, List.map_append, List.count_append, List.count_cons,
    List.map_cons, List.map_nil, List.count_nil]
  omega

end BucketLemmas

section StepInvariants

/-- One loop iteration never touches the removed bucket. -/
lemma stepT_removed (pm : List (Str × TodoItem)) (st : DiffResult × List Str) (it : TodoItem) :
    (stepT pm st it).1.removed_tasks = st.1.removed_tasks := by
  unfold stepT
  cases hget : dictGet pm it.task with
  | some pv => simp [hget, addToResult_removed]
  | none =>
    cases hsim : findSimilarTask it.task (dictKeys pm) st.2 with
    | none => simp [hget, hsim]
    | some s =>
      cases hg2 : dictGet pm s with
      | some pv => simp [hget, hsim, hg2, addToResult_removed]
      | none => simp [hget, hsim, hg2]

/-- One loop iteration either keeps the matched set or appends one previous
key to it. -/
lemma stepT_matched (pm : List (Str × TodoItem)) (st : DiffResult × List Str) (it : TodoItem) :
    (stepT pm st it).2 = st.2 ∨
      ∃ n, (stepT pm st it).2 = st.2 ++ [n] ∧ n ∈ dictKeys pm := by
  unfold stepT
  cases hget : dictGet pm it.task with
  | some pv =>
    exact Or.inr ⟨it.task, rfl, hasKey_iff_mem_keys.mp (hasKey_of_dictGet hget)⟩
  | none =>
    cases hsim : findSimilarTask it.task (dictKeys pm) st.2 with
    | none => exact Or.inl rfl
    | some s =>
      cases hg2 : dictGet pm s with
      | some pv =>
        simp only [hg2]
        exact Or.inr ⟨s, rfl, findSimilarTask_mem hsim⟩
      | none => simp [hg2]

/-- One loop iteration preserves matched-set membership. -/
lemma stepT_matched_mono {pm : List (Str × TodoItem)} {st : DiffResult × List Str}
    {it : TodoItem} {n : Str} (h : n ∈ st.2) : n ∈ (stepT pm st it).2 := by
  rcases stepT_matched pm st it with he | ⟨m, he, _⟩
  · rw [he]; exact h
  · rw [he]; exact List.mem_append_left _ h

/-- An exact-matchable current task name enters the matched set at its own
iteration. -/
lemma stepT_matched_hasKey {pm : List (Str × TodoItem)} (st : DiffResult × List Str)
    {it : TodoItem} (h : dictHasKey pm it.task = true) : it.task ∈ (stepT pm st it).2 := by
  rcases dictGet_isSome_of_hasKey h with ⟨v, hv⟩
  unfold stepT
  simp [hv]

/-- One loop iteration adds exactly the current task's name to the
current-side buckets. -/
lemma stepT_bucketNames (pm : List (Str × TodoItem)) (st : DiffResult × List Str)
    (it : TodoItem) :
    List.Perm (bucketNames (stepT pm st it).1) (it.task :: bucketNames st.1) := by
  unfold stepT
  cases hget : dictGet pm it.task with
  | some pv =>
    have := addToResult_bucketNames st.1 (compareItems pv it false)
      (compareItems_type pv it false)
    simpa [compareItems_task] using this
  | none =>
    cases hsim : findSimilarTask it.task (dictKeys pm) st.2 with
    | none => simpa using bucketNames_addNew st.1 (newChange it)
    | some s =>
      cases hg2 : dictGet pm s with
      | some pv =>
        have := addToResult_bucketNames st.1 (compareItems pv it true)
          (compareItems_type pv it true)
        simpa [hg2, compareItems_task] using this
      | none =>
        exfalso
        rcases dictGet_isSome_of_hasKey (hasKey_iff_mem_keys.mpr (findSimilarTask_mem hsim))
          with ⟨v, hv⟩
        rw [hg2] at hv
        cases hv

/-- The loop never touches the removed bucket. -/
lemma foldl_stepT_removed (pm : List (Str × TodoItem)) :
    ∀ (l : List TodoItem) (st : DiffResult × List Str),
      (List.foldl (stepT pm) st l).1.removed_tasks = st.1.removed_tasks := by
  intro l
  induction l with
  | nil => intro st; rfl
  | cons it rest ih =>
    intro st
    rw [List.foldl_cons, ih, stepT_removed]

/-- The loop contributes exactly one current-side record name per current
item. -/
lemma foldl_stepT_bucketNames (pm : List (Str × TodoItem)) :
    ∀ (l : List TodoItem) (st : DiffResult × List Str),
      List.Perm (bucketNames (List.foldl (stepT pm) st l).1)
        (l.map TodoItem.task ++ bucketNames st.1) := by
  intro l
  induction l with
  | nil => intro st; simp
  | cons it rest ih =>
    intro st
    rw [List.foldl_cons]
    refine (ih (stepT pm st it)).trans ?_
    refine (List.Perm.append_left (rest.map TodoItem.task)
      (stepT_bucketNames pm st it)).trans ?_
    simpa using List.perm_middle

/-- The loop only grows the matched set. -/
lemma foldl_stepT_matched_mono (pm : List (Str × TodoItem)) :
    ∀ (l : List TodoItem) (st : DiffResult × List Str) (n : Str),
      n ∈ st.2 → n ∈ (List.foldl (stepT pm) st l).2 := by
  intro l
  induction l with
  | nil => intro st n h; exact h
  | cons it rest ih =>
    intro st n h
    rw [List.foldl_cons]
    exact ih (stepT pm st it) n (stepT_matched_mono h)

/-- Matched names come from the initial set or the previous keys. -/
lemma foldl_stepT_matched_sub (pm : List (Str × TodoItem)) :
    ∀ (l : List TodoItem) (st : DiffResult × List Str) (n : Str),
      n ∈ (List.foldl (stepT pm) st l).2 → n ∈ st.2 ∨ n ∈ dictKeys pm := by
  intro l
  induction l with
  | nil => intro st n h; exact Or.inl h
  | cons it rest ih =>
    intro st n h
    rw [List.foldl_cons] at h
    rcases ih (stepT pm st it) n h with h' | h'
    · rcases stepT_matched pm st it with he | ⟨m, he, hm⟩
      · rw [he] at h'; exact Or.inl h'
      · rw [he] at h'
        rcases List.mem_append.mp h' with h'' | h''
        · exact Or.inl h''
        · simp only [List.mem_singleton] at h''
          exact Or.inr (h'' ▸ hm)
    · exact Or.inr h'

/-- Every current item whose name is a previous key ends up matched. -/
lemma foldl_stepT_matched_of_hasKey (pm : List (Str × TodoItem)) :
    ∀ (l : List TodoItem) (st : DiffResult × List Str) (it : TodoItem),
      it ∈ l → dictHasKey pm it.task = true →
        it.task ∈ (List.foldl (stepT pm) st l).2 := by
  intro l
  induction l with
  | nil => intro st it h; cases h
  | cons a rest ih =>
    intro st it hmem hk
    rw [List.foldl_cons]
    rcases List.mem_cons.mp hmem with rfl | hmem'
    · exact foldl_stepT_matched_mono pm rest _ _ (stepT_matched_hasKey st hk)
    · exact ih (stepT pm st a) it hmem' hk

end StepInvariants

section PrevMapLemmas

/-- Dictionary insertion keeps the key sequence, appending a fresh key. -/
lemma dictKeys_dictInsert (m : List (Str × TodoItem)) (k : Str) (v : TodoItem) :
    dictKeys (dictInsert m k v) =
      if dictHasKey m k = true then dictKeys m else dictKeys m ++ [k] := by
  by_cases h : dictHasKey m k = true
  · have h' : m.any (fun kv => kv.1 == k) = true := h
    rw [if_pos h]
    unfold dictInsert
    rw [if_pos h']
    unfold dictKeys
    rw [List.map_map]
    apply List.map_congr_left
    intro kv _
    by_cases hk : kv.1 = k
    · simp [hk]
    · simp [hk]
  · have h' : ¬ m.any (fun kv => kv.1 == k) = true := h
    rw [if_neg h]
    unfold dictInsert
    rw [if_neg h']
    unfold dictKeys
    simp

/-- The key sequence of the previous-task dictionary has no duplicates. -/
lemma dictKeys_buildPrevMap_nodup (items : List TodoItem) :
    (dictKeys (buildPrevMap items)).Nodup := by
  suffices h : ∀ m : List (Str × TodoItem), (dictKeys m).Nodup →
      (dictKeys (items.foldl (fun m it => dictInsert m it.task it) m)).Nodup by
    exact h [] (by simp [dictKeys])
  induction items with
  | nil => intro m hm; exact hm
  | cons a rest ih =>
    intro m hm
    rw [List.foldl_cons]
    apply ih
    rw [dictKeys_dictInsert]
    by_cases h : dictHasKey m a.task = true
    · rw [if_pos h]; exact hm
    · rw [if_neg h]
      have hnot : a.task ∉ dictKeys m := fun hmem => h (hasKey_iff_mem_keys.mpr hmem)
      exact ((List.perm_append_singleton a.task (dictKeys m)).nodup_iff).mpr
        (List.nodup_cons.mpr ⟨hnot, hm⟩)

/-- With duplicate-free task names, the previous dictionary is the plain
association list of items. -/
lemma buildPrevMap_of_nodup (items : List TodoItem)
    (h : (items.map TodoItem.task).Nodup) :
    buildPrevMap items = items.map (fun it => (it.task, it)) := by
  suffices hgen : ∀ (l : List TodoItem) (acc : List (Str × TodoItem)),
      (l.map TodoItem.task).Nodup → (∀ it ∈ l, it.task ∉ dictKeys acc) →
      l.foldl (fun m it => dictInsert m it.task it) acc = acc ++ l.map (fun it => (it.task, it)) by
    simpa using hgen items [] h (by simp [dictKeys])
  intro l
  induction l with
  | nil => intro acc _ _; simp
  | cons a rest ih =>
    intro acc hnd hfresh
    rw [List.foldl_cons]
    have hkey : ¬ dictHasKey acc a.task = true := fun hk =>
      hfresh a (List.mem_cons_self a rest) (hasKey_iff_mem_keys.mp hk)
    have hkey' : ¬ (acc.any fun kv => kv.1 == a.task) = true := hkey
    have hins : dictInsert acc a.task a = acc ++ [(a.task, a)] := by
      unfold dictInsert
      rw [if_neg hkey']
    rw [hins, ih (acc ++ [(a.task, a)]) (List.nodup_cons.mp (by simpa using hnd)).2 ?_]
    · simp
    · intro it hit hmem
      have hkeys : dictKeys (acc ++ [(a.task, a)]) = dictKeys acc ++ [a.task] := by
        simp [dictKeys]
      rw [hkeys] at hmem
      rcases List.mem_append.mp hmem with hmem' | hmem'
      · exact hfresh it (List.mem_cons_of_mem a hit) hmem'
      · have : it.task = a.task := by simpa using hmem'
        have hna : a.task ∉ rest.map TodoItem.task :=
          (List.nodup_cons.mp (by simpa using hnd)).1
        exact hna (this ▸ List.mem_map_of_mem TodoItem.task hit)

/-- Looking an item's own name up in the plain association list of a
duplicate-free snapshot returns that item. -/
lemma dictGet_map_self (items : List TodoItem)
    (h : (items.map TodoItem.task).Nodup) {it : TodoItem} (hit : it ∈ items) :
    dictGet (items.map (fun i => (i.task, i))) it.task = some it := by
  induction items with
  | nil => cases hit
  | cons a rest ih =>
    rcases List.mem_cons.mp hit with rfl | hit'
    · simp [dictGet, List.find?_cons]
    · have hna : a.task ∉ rest.map TodoItem.task := (List.nodup_cons.mp (by simpa using h)).1
      have hne : (a.task == it.task) = false := by
        rw [beq_eq_false_iff_ne]
        intro he
        exact hna (he ▸ List.mem_map_of_mem TodoItem.task hit')
      simp only [List.map_cons, dictGet, List.find?_cons, hne]
      exact ih (List.nodup_cons.mp (by simpa using h)).2 hit'

/-- Names of the removed records built from the unmatched previous entries. -/
lemma removed_filter_names (pm : List (Str × TodoItem)) (matched : List Str) :
    ((pm.filter (fun kv => kv.1 ∉ matched)).map
        (fun kv => removedChange kv.1 kv.2)).map TaskChange.task_name =
      (dictKeys pm).filter (fun n => n ∉ matched) := by
  induction pm with
  | nil => rfl
  | cons kv rest ih =>
    by_cases h : kv.1 ∉ matched
    · simp only [List.filter_cons, dictKeys, List.map_cons, decide_eq_true_eq, h,
        if_pos, removedChange]
      simpa [dictKeys, removedChange] using ih
    · simp only [List.filter_cons, dictKeys, List.map_cons, decide_eq_true_eq, h,
        if_neg, if_false]
      simpa [dictKeys] using ih

end PrevMapLemmas

section IdempotenceLemmas

/-- Comparing an item with itself yields its unchanged record. -/
lemma compareItems_self (it : TodoItem) :
    compareItems it it false = ⟨it.task, "unchanged".data, none, some it.status, []⟩ := by
  simp only [compareItems]
  have hb : (!isCompleted it.status && isCompleted it.status) = false := by
    cases isCompleted it.status <;> rfl
  simp [hb]

/-- Routing an unchanged record appends it to the unchanged bucket. -/
lemma addToResult_unchanged (r : DiffResult) (name st : Str) :
    addToResult r ⟨name, "unchanged".data, none, some st, []⟩ =
      { r with unchanged_tasks := r.unchanged_tasks ++ [⟨name, "unchanged".data, none, some st, []⟩] } := by
  unfold addToResult
  rw [if_neg (show ¬ ("unchanged".data = "completed".data) by decide),
    if_neg (show ¬ ("unchanged".data = "modified".data) by decide), if_pos rfl]

/-- The loop over a snapshot in which every item exact-matches itself puts
every item, in order, into the unchanged bucket and matches every name. -/
lemma foldl_stepT_self (pm : List (Str × TodoItem)) :
    ∀ (l : List TodoItem) (r0 : DiffResult) (m0 : List Str),
      (∀ it ∈ l, dictGet pm it.task = some it) →
      List.foldl (stepT pm) (r0, m0) l =
        ({ r0 with unchanged_tasks := (r0.unchanged_tasks ++
            l.map (fun it => ⟨it.task, "unchanged".data, none, some it.status, []⟩)) },
          m0 ++ l.map TodoItem.task) := by
  intro l
  induction l with
  | nil => intro r0 m0 _; simp
  | cons a rest ih =>
    intro r0 m0 hget
    rw [List.foldl_cons]
    have hga := hget a (List.mem_cons_self a rest)
    have hstep : stepT pm (r0, m0) a =
        (addToResult r0 (compareItems a a false), m0 ++ [a.task]) := by
      unfold stepT
      simp [hga]
    rw [hstep, compareItems_self, addToResult_unchanged,
      ih _ _ (fun it hit => hget it (List.mem_cons_of_mem a hit))]
    simp

end IdempotenceLemmas

/-- C5 — Idempotence (amended): for a snapshot whose task names are pairwise
distinct, analyzing it against itself puts every task, in order, into
Unchanged and leaves Completed, New, Modified and Removed empty.  (Without
the distinctness hypothesis the claim fails: see the counterexample.) -/
theorem analyze_idempotent (x : TodoList) (h : (x.items.map TodoItem.task).Nodup) :
    analyzeO x (some x) =
      some ⟨[], [], [],
        x.items.map (fun it => ⟨it.task, "unchanged".data, none, some it.status, []⟩), []⟩ := by
  rw [analyzeO_eq_run]
  by_cases hemp : x.items.isEmpty
  · have hnil : x.items = [] := List.isEmpty_iff.mp hemp
    simp [analyzeRun, hemp, hnil, newOnlyResult, emptyResult]
  · have hpm : buildPrevMap x.items = x.items.map (fun it => (it.task, it)) :=
      buildPrevMap_of_nodup x.items h
    have hget : ∀ it ∈ x.items, dictGet (buildPrevMap x.items) it.task = some it := by
      intro it hit
      rw [hpm]
      exact dictGet_map_self x.items h hit
    have hfold := foldl_stepT_self (buildPrevMap x.items) x.items emptyResult [] hget
    simp only [analyzeRun, hemp, if_neg, if_false]
    rw [hfold]
    unfold addRemoved
    have hfilter : (buildPrevMap x.items).filter
        (fun kv => kv.1 ∉ [] ++ x.items.map TodoItem.task) = [] := by
      rw [List.filter_eq_nil_iff]
      intro kv hkv
      rw [hpm] at hkv
      rcases List.mem_map.mp hkv with ⟨it, hit, rfl⟩
      simp [List.mem_map_of_mem TodoItem.task hit]
    rw [hfilter]
    simp [emptyResult]

/-- Counterexample for C5 as stated: a snapshot with a duplicated task name
analyzed against itself produces a Modified record, not only Unchanged. -/
theorem analyze_idempotent_cex :
    analyzeO ⟨[⟨['A'], ['x']⟩, ⟨['A'], ['y']⟩], none⟩
        (some ⟨[⟨['A'], ['x']⟩, ⟨['A'], ['y']⟩], none⟩) =
      some ⟨[], [], [⟨['A'], "modified".data, some ['y'], some ['x'], []⟩],
        [⟨['A'], "unchanged".data, none, some ['y'], []⟩], []⟩ ∧
    (⟨[], [], [⟨['A'], "modified".data, some ['y'], some ['x'], []⟩],
        [⟨['A'], "unchanged".data, none, some ['y'], []⟩], []⟩ : DiffResult).modified_tasks ≠
      [] :=
  ⟨rfl, by decide⟩

/-- Witness for C5 at a concrete duplicate-free snapshot. -/
theorem analyze_idempotent_witness :
    analyzeO ⟨[⟨['A'], ['x']⟩], none⟩ (some ⟨[⟨['A'], ['x']⟩], none⟩) =
      some ⟨[], [], [], [⟨['A'], "unchanged".data, none, some ['x'], []⟩], []⟩ :=
  analyze_idempotent ⟨[⟨['A'], ['x']⟩], none⟩ (by decide)

section PartitionLemmas

/-- Keys of the plain association list are the task names. -/
lemma dictKeys_map_pair (items : List TodoItem) :
    dictKeys (items.map (fun it => (it.task, it))) = items.map TodoItem.task := by
  simp [dictKeys, List.map_map, Function.comp]

/-- The cold-start report's current-side names are the current names. -/
lemma bucketNames_newOnly (current : TodoList) :
    bucketNames (newOnlyResult current) = current.items.map TodoItem.task := by
  simp [bucketNames, newOnlyResult, emptyResult, newChange, List.map_map, Function.comp]

/-- Appending the removed entries leaves the current-side buckets alone. -/
lemma bucketNames_addRemoved (r : DiffResult) (pm : List (Str × TodoItem))
    (matched : List Str) : bucketNames (addRemoved r pm matched) = bucketNames r := rfl

/-- Names appended by the removed-detection loop. -/
lemma removedNames_addRemoved (r : DiffResult) (pm : List (Str × TodoItem))
    (matched : List Str) :
    removedNames (addRemoved r pm matched) =
      removedNames r ++ (dictKeys pm).filter (fun n => n ∉ matched) := by
  unfold removedNames addRemoved
  simp only [List.map_append]
  rw [removed_filter_names]

end PartitionLemmas

/-- C1 — Partition (amended): for collections whose task names are pairwise
distinct within each side, the report partitions the names: the Completed,
New, Modified, Unchanged buckets together carry exactly the current task
names, each exactly once; Removed carries exactly the previous names not in
the final matched set, each exactly once; a matched previous name never
appears in Removed; and no name appears both in a current-side bucket and in
Removed.  (As stated over all collections the claim fails once a name is
duplicated: see the counterexample.) -/
theorem analyze_partition (current : TodoList) (previous : Option TodoList)
    (hc : (current.items.map TodoItem.task).Nodup)
    (hp : ((prevItems previous).map TodoItem.task).Nodup) :
    ∃ r, analyzeO current previous = some r ∧
      List.Perm (bucketNames r) (current.items.map TodoItem.task) ∧
      (bucketNames r).Nodup ∧
      removedNames r = ((prevItems previous).map TodoItem.task).filter
        (fun n => n ∉ matchedSet current previous) ∧
      (removedNames r).Nodup ∧
      (∀ n ∈ matchedSet current previous, n ∉ removedNames r) ∧
      (∀ n ∈ bucketNames r, n ∉ removedNames r) := by
  refine ⟨analyzeRun current previous, analyzeO_eq_run current previous, ?_⟩
  cases previous with
  | none =>
    have h1 : analyzeRun current none = newOnlyResult current := rfl
    rw [h1, bucketNames_newOnly]
    refine ⟨List.Perm.refl _, hc, rfl, ?_, ?_, ?_⟩
    · simp [removedNames, newOnlyResult, emptyResult]
    · intro n hn
      simp [matchedSet] at hn
    · intro n _
      simp [removedNames, newOnlyResult, emptyResult]
  | some prev =>
    by_cases hemp : prev.items.isEmpty
    · have hnil : prev.items = [] := List.isEmpty_iff.mp hemp
      have h1 : analyzeRun current (some prev) = newOnlyResult current := by
        simp [analyzeRun, hemp]
      rw [h1, bucketNames_newOnly]
      refine ⟨List.Perm.refl _, hc, ?_, ?_, ?_, ?_⟩
      · simp [removedNames, newOnlyResult, emptyResult, prevItems, hnil]
      · simp [removedNames, newOnlyResult, emptyResult]
      · intro n hn
        simp [matchedSet, hemp] at hn
      · intro n _
        simp [removedNames, newOnlyResult, emptyResult]
    · have hrun : analyzeRun current (some prev) =
          addRemoved (current.items.foldl (stepT (buildPrevMap prev.items)) (emptyResult, [])).1
            (buildPrevMap prev.items)
            (current.items.foldl (stepT (buildPrevMap prev.items)) (emptyResult, [])).2 := by
        simp [analyzeRun, hemp]
      have hms : matchedSet current (some prev) =
          (current.items.foldl (stepT (buildPrevMap prev.items)) (emptyResult, [])).2 := by
        simp [matchedSet, hemp]
      have hperm : List.Perm
          (bucketNames (current.items.foldl (stepT (buildPrevMap prev.items))
            (emptyResult, [])).1)
          (current.items.map TodoItem.task) := by
        have := foldl_stepT_bucketNames (buildPrevMap prev.items) current.items (emptyResult, [])
        simpa [bucketNames, emptyResult] using this
      have hkeys : dictKeys (buildPrevMap prev.items) = prev.items.map TodoItem.task := by
        rw [buildPrevMap_of_nodup prev.items (by simpa [prevItems] using hp), dictKeys_map_pair]
      have hrm : removedNames (analyzeRun current (some prev)) =
          ((prevItems (some prev)).map TodoItem.task).filter
            (fun n => n ∉ matchedSet current (some prev)) := by
        rw [hrun, removedNames_addRemoved]
        have hz : removedNames
            (current.items.foldl (stepT (buildPrevMap prev.items)) (emptyResult, [])).1 = [] := by
          unfold removedNames
          rw [foldl_stepT_removed]
          rfl
        rw [hz, List.nil_append, hkeys, hms]
        rfl
      refine ⟨?_, ?_, hrm, ?_, ?_, ?_⟩
      · rw [hrun, bucketNames_addRemoved]
        exact hperm
      · rw [hrun, bucketNames_addRemoved]
        exact hperm.nodup_iff.mpr hc
      · rw [hrm]
        exact List.Nodup.filter _ (by simpa [prevItems] using hp)
      · intro n hn hcon
        rw [hrm] at hcon
        have h2 : n ∉ matchedSet current (some prev) := by
          simpa using (List.mem_filter.mp hcon).2
        exact h2 hn
      · intro n hn hcon
        rw [hrun, bucketNames_addRemoved] at hn
        rw [hrm] at hcon
        have h2 : n ∉ matchedSet current (some prev) := by
          simpa using (List.mem_filter.mp hcon).2
        have h3 : n ∈ (prevItems (some prev)).map TodoItem.task := (List.mem_filter.mp hcon).1
        have hncur : n ∈ current.items.map TodoItem.task := hperm.mem_iff.mp hn
        rcases List.mem_map.mp hncur with ⟨it, hit, rfl⟩
        refine h2 ?_
        rw [hms]
        exact foldl_stepT_matched_of_hasKey (buildPrevMap prev.items) current.items
          (emptyResult, []) it hit
          (hasKey_iff_mem_keys.mpr (by rw [hkeys]; simpa [prevItems] using h3))

/-- Counterexample for C1 as stated: with a duplicated current task name the
same name lands in two buckets (once in Modified, once in Unchanged), so a
task name is duplicated across buckets. -/
theorem analyze_partition_cex :
    analyzeO ⟨[⟨['A'], ['x']⟩, ⟨['A'], ['y']⟩], none⟩ (some ⟨[⟨['A'], ['x']⟩], none⟩) =
      some ⟨[], [], [⟨['A'], "modified".data, some ['x'], some ['y'], []⟩],
        [⟨['A'], "unchanged".data, none, some ['x'], []⟩], []⟩ ∧
    ¬ (bucketNames ⟨[], [], [⟨['A'], "modified".data, some ['x'], some ['y'], []⟩],
        [⟨['A'], "unchanged".data, none, some ['x'], []⟩], []⟩).Nodup :=
  ⟨rfl, by decide⟩

/-- Witness for C1 at concrete duplicate-free collections. -/
theorem analyze_partition_witness :
    ∃ r, analyzeO ⟨[⟨['A'], ['x']⟩], none⟩ (some ⟨[⟨['B'], ['y']⟩], none⟩) = some r ∧
      List.Perm (bucketNames r)
        ((⟨[⟨['A'], ['x']⟩], none⟩ : TodoList).items.map TodoItem.task) ∧
      (bucketNames r).Nodup ∧
      removedNames r =
        ((prevItems (some ⟨[⟨['B'], ['y']⟩], none⟩)).map TodoItem.task).filter
          (fun n => n ∉ matchedSet ⟨[⟨['A'], ['x']⟩], none⟩ (some ⟨[⟨['B'], ['y']⟩], none⟩)) ∧
      (removedNames r).Nodup ∧
      (∀ n ∈ matchedSet ⟨[⟨['A'], ['x']⟩], none⟩ (some ⟨[⟨['B'], ['y']⟩], none⟩),
        n ∉ removedNames r) ∧
      (∀ n ∈ bucketNames r, n ∉ removedNames r) :=
  analyze_partition ⟨[⟨['A'], ['x']⟩], none⟩ (some ⟨[⟨['B'], ['y']⟩], none⟩)
    (by decide) (by decide)

/-- C9 — Exact matching never consults the matched set: whenever a current
item's name has a dictionary entry, the loop body produces exactly the record
comparing that single stored entry with the item — independently of the
matched-set state, so duplicated current names each yield one record against
the same previous record — and a previous name carried by some current item
never appears in Removed. -/
theorem exact_match_ignores_matched (pm : List (Str × TodoItem))
    (st : DiffResult × List Str) (it pv : TodoItem)
    (current prev : TodoList) (r : DiffResult) (n : Str) :
    (dictGet pm it.task = some pv →
      processItem pm st it =
        some (addToResult st.1 (compareItems pv it false), st.2 ++ [it.task])) ∧
    (analyzeO current (some prev) = some r →
      (∃ c ∈ current.items, c.task = n) →
      dictHasKey (buildPrevMap prev.items) n = true →
      ∀ tc ∈ r.removed_tasks, tc.task_name ≠ n) := by
  constructor
  · intro hga
    unfold processItem
    rw [if_pos (hasKey_of_dictGet hga), hga]
  · intro hr hex hkey tc htc hne
    rw [analyzeO_eq_run] at hr
    have hr' : r = analyzeRun current (some prev) := (Option.some.injEq _ _).mp hr.symm
    subst hr'
    by_cases hemp : prev.items.isEmpty
    · have h1 : analyzeRun current (some prev) = newOnlyResult current := by
        simp [analyzeRun, hemp]
      rw [h1] at htc
      simp [newOnlyResult, emptyResult] at htc
    · have hrun : analyzeRun current (some prev) =
          addRemoved (current.items.foldl (stepT (buildPrevMap prev.items)) (emptyResult, [])).1
            (buildPrevMap prev.items)
            (current.items.foldl (stepT (buildPrevMap prev.items)) (emptyResult, [])).2 := by
        simp [analyzeRun, hemp]
      rw [hrun] at htc
      have hmemname : tc.task_name ∈ removedNames (addRemoved
          (current.items.foldl (stepT (buildPrevMap prev.items)) (emptyResult, [])).1
          (buildPrevMap prev.items)
          (current.items.foldl (stepT (buildPrevMap prev.items)) (emptyResult, [])).2) :=
        List.mem_map_of_mem TaskChange.task_name htc
      rw [removedNames_addRemoved] at hmemname
      have hz : removedNames
          (current.items.foldl (stepT (buildPrevMap prev.items)) (emptyResult, [])).1 = [] := by
        unfold removedNames
        rw [foldl_stepT_removed]
        rfl
      rw [hz, List.nil_append] at hmemname
      have hnotm : tc.task_name ∉
          (current.items.foldl (stepT (buildPrevMap prev.items)) (emptyResult, [])).2 := by
        simpa using (List.mem_filter.mp hmemname).2
      rcases hex with ⟨c, hcmem, hcn⟩
      apply hnotm
      rw [hne, ← hcn]
      exact foldl_stepT_matched_of_hasKey (buildPrevMap prev.items) current.items
        (emptyResult, []) c hcmem (by rw [hcn]; exact hkey)

/-- Witness for C9: a duplicated current name `A` exact-matches the same
stored previous record in both iterations, and `A` is absent from Removed. -/
theorem exact_match_ignores_matched_witness :
    (processItem [(['A'], ⟨['A'], ['x']⟩)] (emptyResult, []) ⟨['A'], ['y']⟩ =
      some (addToResult emptyResult
        (compareItems ⟨['A'], ['x']⟩ ⟨['A'], ['y']⟩ false), [] ++ [['A']])) ∧
    (∀ tc ∈ (⟨[], [], [⟨['A'], "modified".data, some ['z'], some ['x'], []⟩,
        ⟨['A'], "modified".data, some ['z'], some ['y'], []⟩], [], []⟩ :
          DiffResult).removed_tasks,
      tc.task_name ≠ ['A']) :=
  ⟨(exact_match_ignores_matched [(['A'], ⟨['A'], ['x']⟩)] (emptyResult, [])
      ⟨['A'], ['y']⟩ ⟨['A'], ['x']⟩ ⟨[], none⟩ ⟨[], none⟩ emptyResult []).1 rfl,
    (exact_match_ignores_matched [] (emptyResult, []) ⟨[], []⟩ ⟨[], []⟩
      ⟨[⟨['A'], ['x']⟩, ⟨['A'], ['y']⟩], none⟩ ⟨[⟨['A'], ['z']⟩], none⟩
      ⟨[], [], [⟨['A'], "modified".data, some ['z'], some ['x'], []⟩,
        ⟨['A'], "modified".data, some ['z'], some ['y'], []⟩], [], []⟩ ['A']).2
      rfl ⟨⟨['A'], ['x']⟩, by decide, rfl⟩ (by decide)⟩

end SontaKun
